import Mathlib

/-
Verification of the kartevonmorgen entry-submission workflow, slug codec,
form-field transformer and ratings threader, shallowly embedded from the
TypeScript sources (EntryForm, ResultCard, EntityRatings).
-/

set_option maxRecDepth 4000

namespace KVM

/-- A JSON-like field value as carried by a form payload. -/
inductive FieldValue
  | null
  | str (s : String)
  | num (n : Int)
  | strList (l : List String)
  | linkList (l : List (String × String))
deriving DecidableEq, Repr

/-- A form payload object: an ordered association list from field names to values. -/
abbrev Obj := List (String × FieldValue)

/-- Modelled from the spec: the defaulting step of utils/objects
(setValuesToDefaultOrNull is only called, not defined, in the sources):
for a key of the defaults table, an absent or null field is set to the
default; a present non-null value is kept. -/
def fillVal (d : Obj) (k : String) (v : FieldValue) : FieldValue :=
  match d.lookup k with
  | some dv => if v = FieldValue.null then dv else v
  | none => v

/-- Modelled from the spec: utils/objects setValuesToDefaultOrNull — every key
present in the defaults table whose field is absent or null is set to the
default; present non-null values are never overwritten. -/
def setValuesToDefaultOrNull (e d : Obj) : Obj :=
  e.map (fun kv => (kv.1, fillVal d kv.1 kv.2)) ++
    d.filter (fun kv => (e.lookup kv.1).isNone)

/-- Modelled from the spec: the per-key rule application of utils/objects
transformObject — a key present in both the object and the rules table has
its value replaced by rule(currentValue). -/
def applyRule (rules : List (String × (FieldValue → FieldValue)))
    (k : String) (v : FieldValue) : FieldValue :=
  match rules.lookup k with
  | some r => r v
  | none => v

/-- Modelled from the spec: utils/objects transformObject. -/
def transformObject (e : Obj) (rules : List (String × (FieldValue → FieldValue))) : Obj :=
  e.map (fun kv => (kv.1, applyRule rules kv.1 kv.2))

/-- Modelled from the spec: the key translation of utils/objects
renameProperties — a key present in the rename table is replaced by its
mapped name, all other keys pass through unchanged. -/
def renameKey (ren : List (String × String)) (k : String) : String :=
  match ren.lookup k with
  | some k2 => k2
  | none => k

/-- Modelled from the spec: utils/objects renameProperties — every key present
in the rename table is copied under its mapped name and the original key is
removed; all other keys pass through unchanged. -/
def renameProperties (e : Obj) (ren : List (String × String)) : Obj :=
  e.map (fun kv => (renameKey ren kv.1, kv.2))

/-- The defaults table of setFieldsToDefaultOrNull in EntryForm. -/
def defaultFieldValues : Obj :=
  [("tags", FieldValue.strList []),
   ("custom_links", FieldValue.linkList []),
   ("version", FieldValue.num 0)]

/-- EntryForm setFieldsToDefaultOrNull. -/
def setFieldsToDefaultOrNull (entry : Obj) : Obj :=
  setValuesToDefaultOrNull entry defaultFieldValues

/-- The version rule of transformFormFields: the version is raised by 1. -/
def versionRule : FieldValue → FieldValue
  | FieldValue.num n => FieldValue.num (n + 1)
  | v => v

/-- The license rule of transformFormFields: the license is fetched from the
array, the empty array yields the empty string. -/
def licenseRule : FieldValue → FieldValue
  | FieldValue.strList [] => FieldValue.str ""
  | FieldValue.strList (x :: _) => FieldValue.str x
  | v => v

/-- The rules table of transformFormFields in EntryForm. -/
def formRules : List (String × (FieldValue → FieldValue)) :=
  [("version", versionRule), ("license", licenseRule)]

/-- The rename table of transformFormFields in EntryForm. -/
def fieldsToRename : List (String × String) := [("custom_links", "links")]

/-- EntryForm transformFormFields: apply the rules, then rename the fields. -/
def transformFormFields (entry : Obj) : Obj :=
  renameProperties (transformObject entry formRules) fieldsToRename

/-- The full outgoing payload computed inside createNewEntry:
defaults first, then the transform rules, then the renames. -/
def commitPayload (entry : Obj) : Obj :=
  transformFormFields (setFieldsToDefaultOrNull entry)

/-- A single comment of a rating (dtos/RatingComment). -/
structure RatingComment where
  id : String
  created : Int
  text : String
deriving DecidableEq, Repr

/-- A rating with its context tag, source and ordered comment list (dtos/Rating). -/
structure Rating where
  id : String
  context : String
  source : String
  comments : List RatingComment
deriving DecidableEq, Repr

/-- The comment-threading step of EntityRatings:
`const [rootComment, ...replies] = contextRating.comments`. -/
def threadRating (r : Rating) : Option RatingComment × List RatingComment :=
  (r.comments.head?, r.comments.tail)

/-- One step of the groupBy(ratings, context) loop of EntityRatings: the rating
is appended to the bucket of its context, a fresh bucket is opened at the end
for a new context. -/
def addToGroups (gs : List (String × List Rating)) (r : Rating) :
    List (String × List Rating) :=
  match gs with
  | [] => [(r.context, [r])]
  | (c, l) :: rest =>
    if c = r.context then (c, l ++ [r]) :: rest
    else (c, l) :: addToGroups rest r

/-- groupBy(ratings, context) of EntityRatings: buckets in first-occurrence
order, each bucket in input order. -/
def groupByContext (rs : List Rating) : List (String × List Rating) :=
  rs.foldl addToGroups []

/-- Object.keys(groupedRatings).sort(): lexicographic string sort. -/
def sortStrings (l : List String) : List String := List.insertionSort (· ≤ ·) l

/-- The sorted context list displayed by EntityRatings. -/
def sortedContexts (rs : List Rating) : List String :=
  sortStrings ((groupByContext rs).map Prod.fst)

/-- The slug verbs (utils/types SlugVerb): create and edit. -/
def slugVerbs : List String := ["create", "edit"]

/-- A decoded chain entry: an entity-type token and an optional id. -/
structure ChainEntry where
  entityType : String
  id : Option String
deriving DecidableEq, Repr

/-- Modelled from the spec: the NavigationDescriptor of the SlugCodec (utils/slug
is only called, not defined, in the given sources). -/
structure NavigationDescriptor where
  chain : List ChainEntry
  verb : Option String
deriving DecidableEq, Repr

/-- Modelled from the spec: the chain-decoding loop of SlugCodec decode —
segments are consumed left to right, each token opens a chain entry, and the
following token is consumed as that entry id unless it is itself a recognized
entity-type token or a verb. -/
def decodeChain (tokens : List String) : List String → List ChainEntry
  | [] => []
  | [s] => [⟨s, none⟩]
  | s :: r :: rest =>
    if tokens.contains r || slugVerbs.contains r then
      ⟨s, none⟩ :: decodeChain tokens (r :: rest)
    else ⟨s, some r⟩ :: decodeChain tokens rest

/-- Modelled from the spec: SlugCodec decode — a final verb token is removed
from the chain and recorded as the descriptor verb; an empty segment list
decodes to an empty chain with no verb. -/
def decode (tokens : List String) (segments : List String) : NavigationDescriptor :=
  match segments.getLast? with
  | some v =>
    if slugVerbs.contains v then ⟨decodeChain tokens segments.dropLast, some v⟩
    else ⟨decodeChain tokens segments, none⟩
  | none => ⟨[], none⟩

/-- The id part of an encoded chain entry: the id token when present. -/
def encodeIdPart : Option String → List String
  | some i => [i]
  | none => []

/-- Modelled from the spec: SlugCodec encode of one chain entry — the
entity-type token, then the id token when present. -/
def encodeEntry (e : ChainEntry) : List String :=
  e.entityType :: encodeIdPart e.id

/-- Modelled from the spec: SlugCodec encode of a chain, entry by entry. -/
def encodeChain : List ChainEntry → List String
  | [] => []
  | e :: rest => encodeEntry e ++ encodeChain rest

/-- Modelled from the spec: SlugCodec encode — chain entries in order, then the
verb token last when present. -/
def encode (d : NavigationDescriptor) : List String :=
  encodeChain d.chain ++ (match d.verb with | some v => [v] | none => [])

/-- Well-formedness of a chain entry per the data model: the entity type is a
recognized entity-type token (and not a verb), and the id, when present, is an
opaque token, neither a recognized entity-type token nor a verb. -/
def wellFormedEntry (tokens : List String) (e : ChainEntry) : Bool :=
  tokens.contains e.entityType && !slugVerbs.contains e.entityType &&
    (match e.id with
     | some i => !tokens.contains i && !slugVerbs.contains i
     | none => true)

/-- Well-formedness of a descriptor: well-formed entries and a verb that is a
recognized verb when present. -/
def wellFormed (tokens : List String) (d : NavigationDescriptor) : Bool :=
  d.chain.all (wellFormedEntry tokens) &&
    (match d.verb with | some v => slugVerbs.contains v | none => true)

/-- A query object: an ordered association list from parameter names to their
normalized string-list values. -/
abbrev Query := List (String × List String)

/-- Modelled from the spec: normalizeQueryParam — an absent parameter collapses
to the empty segment list. -/
def normalizeQueryParam : Option (List String) → List String
  | some l => l
  | none => []

/-- The entity categories involved in the form and result cards (dtos/Categories). -/
inductive Category
  | initiative
  | company
  | event
deriving DecidableEq, Repr

/-- Modelled from the spec: the category to plural resource-type token table of
EntityAddressResolver — initiative and company both map to the token of the
shared entity detail view. -/
def mapCategoryToToken : Category → String
  | Category.initiative => "entities"
  | Category.company => "entities"
  | Category.event => "events"

/-- Modelled from the spec: the recognized plural entity-type tokens. -/
def recognizedTokens : List String := ["entities", "events", "ratings", "comments"]

/-- Modelled from the spec: the query after slug removal with the listed keys
stripped. -/
def stripQueryKeys (query : Query) (keysToStrip : List String) : Query :=
  query.filter (fun kv => !(kv.1 == "slug") && !keysToStrip.contains kv.1)

/-- Modelled from the spec: EntityAddressResolver resolve — decode the current
slug, truncate the chain to truncateDepth entries, append the target entry,
re-encode to the /maps path, and strip the listed keys from the remaining
query. -/
def resolve (query : Query) (targetId : String) (cat : Category)
    (truncateDepth : Nat) (keysToStrip : List String) : String × Query :=
  let segs := normalizeQueryParam (query.lookup "slug")
  let d := decode recognizedTokens segs
  let newChain := d.chain.take truncateDepth ++ [⟨mapCategoryToToken cat, some targetId⟩]
  ("/maps/" ++ String.intercalate "/" (encode ⟨newChain, none⟩),
   stripQueryKeys query keysToStrip)

/-- A search-result-shaped record holding the new id and the entry payload.
Modelled from the spec: convertNewEntryToSearchEntry (dtos/SearchEntry) is not
among the given sources. -/
structure SearchEntry where
  id : String
  entry : Obj
deriving DecidableEq, Repr

/-- Modelled from the spec: the created entry converted to a search-result-shaped
record. -/
def convertNewEntryToSearchEntry (id : String) (entry : Obj) : SearchEntry :=
  ⟨id, entry⟩

/-- The observable effects of the submission workflow, in program order. -/
inductive Ev
  | cachePayload (p : Obj)
  | dupCheckCall (p : Obj)
  | postEntries (body : Obj)
  | putEntries (id : String) (body : Obj)
  | redirect (path : String) (query : Query)
deriving DecidableEq, Repr

/-- The create-or-edit commit calls: POST or PUT to /entries. -/
def isCommitCall : Ev → Bool
  | Ev.postEntries _ => true
  | Ev.putEntries _ _ => true
  | _ => false

/-- Every network call of the workflow. -/
def isNetworkCall : Ev → Bool
  | Ev.dupCheckCall _ => true
  | Ev.postEntries _ => true
  | Ev.putEntries _ _ => true
  | _ => false

/-- A POST to /entries. -/
def isPostCall : Ev → Bool
  | Ev.postEntries _ => true
  | _ => false

/-- A PUT to /entries/{id}. -/
def isPutCall : Ev → Bool
  | Ev.putEntries _ _ => true
  | _ => false

/-- A client-side redirect. -/
def isRedirectEv : Ev → Bool
  | Ev.redirect _ _ => true
  | _ => false

/-- The fixed context of one form session: the isEdit flag and entry id fixed at
construction, the id the server would assign on create, and the current
in-memory search-result collection. -/
structure WorkflowCtx where
  isEdit : Bool
  entryId : String
  serverId : String
  collection : List SearchEntry
deriving DecidableEq, Repr

/-- JS-style field access on a payload: an absent field collapses to null. -/
def lookupD (e : Obj) (k : String) : FieldValue := (e.lookup k).getD FieldValue.null

/-- The license normalization inside checkDuplicateEntries: an array license is
joined to a single string. -/
def joinLicense : FieldValue → FieldValue
  | FieldValue.strList l => FieldValue.str (String.join l)
  | v => v

/-- The duplicate payload built inside checkDuplicateEntries of EntryForm:
the destructured entry fields, null id and contact, fixed filler fields, and
the joined license. -/
def mkDuplicatePayload (e : Obj) : Obj :=
  [("title", lookupD e "title"),
   ("description", lookupD e "description"),
   ("city", lookupD e "city"),
   ("zip", lookupD e "zip"),
   ("country", lookupD e "country"),
   ("state", lookupD e "state"),
   ("street", lookupD e "street"),
   ("lat", lookupD e "lat"),
   ("lng", lookupD e "lng"),
   ("telephone", lookupD e "telephone"),
   ("email", lookupD e "email"),
   ("id", FieldValue.null),
   ("homepage", FieldValue.null),
   ("tags", FieldValue.strList []),
   ("image_url", FieldValue.null),
   ("image_link_url", FieldValue.null),
   ("opening_hours", FieldValue.null),
   ("links", FieldValue.strList []),
   ("version", FieldValue.num 1),
   ("contact", FieldValue.null),
   ("categories", FieldValue.strList []),
   ("license", joinLicense (lookupD e "license"))]

/-- The identity, location and contact fields of an entry as the claim reads
them: title and description; city, zip, country, state, street, lat, lng;
contact person, telephone and email. -/
def idLocContactProj (e : Obj) : List (Option FieldValue) :=
  [e.lookup "title", e.lookup "description", e.lookup "city", e.lookup "zip",
   e.lookup "country", e.lookup "state", e.lookup "street", e.lookup "lat",
   e.lookup "lng", e.lookup "contact", e.lookup "telephone", e.lookup "email"]

/-- redirectToEntry of EntryForm: the category is fixed to initiative (both
entry categories map to the same token), the depth argument is 2 and the pin
coordinate keys are stripped. -/
def redirectToEntry (query : Query) (entryId : String) : Ev :=
  Ev.redirect (resolve query entryId Category.initiative 2 ["pinLat", "pinLng"]).1
    (resolve query entryId Category.initiative 2 ["pinLat", "pinLng"]).2

/-- createOrEditEntry of EntryForm: a PUT to the existing id on edit, a POST
returning the server-assigned id on create. -/
def createOrEditEntry (ctx : WorkflowCtx) (body : Obj) : List Ev × String :=
  if ctx.isEdit then ([Ev.putEntries ctx.entryId body], ctx.entryId)
  else ([Ev.postEntries body], ctx.serverId)

/-- addEntryToStateOnCreate of EntryForm: on edit nothing happens, on create
the converted entry is prepended to the collection. -/
def addEntryToStateOnCreate (isEdit : Bool) (id : String) (entry : Obj)
    (col : List SearchEntry) : List SearchEntry :=
  if isEdit then col else convertNewEntryToSearchEntry id entry :: col

/-- The outcome of one commit: the effects in order, the updated collection, and
the resulting id. -/
structure CommitResult where
  trace : List Ev
  collection : List SearchEntry
  resultId : String
deriving DecidableEq, Repr

/-- createNewEntry of EntryForm: default-fill and transform the payload, issue
the create-or-edit call, update the collection on create, then redirect. -/
def createNewEntry (ctx : WorkflowCtx) (query : Query) (entry : Obj) : CommitResult :=
  let adaptedEntry := transformFormFields (setFieldsToDefaultOrNull entry)
  let callResult := createOrEditEntry ctx adaptedEntry
  { trace := callResult.1 ++ [redirectToEntry query callResult.2]
  , collection := addEntryToStateOnCreate ctx.isEdit callResult.2 adaptedEntry ctx.collection
  , resultId := callResult.2 }

/-- The component state reached by one submission. -/
structure SubmitResult where
  trace : List Ev
  collection : List SearchEntry
  duplicates : List Obj
  showModal : Bool
  formData : Obj
  resultId : Option String
deriving DecidableEq, Repr

/-- onFinish of EntryForm: cache the raw payload, run the duplicate check, and
either surface the duplicate candidates in the modal or commit immediately.
The duplicate-check response is a parameter of the model. -/
def onFinish (ctx : WorkflowCtx) (query : Query) (entry : Obj)
    (dupResponse : List Obj) : SubmitResult :=
  let pre := [Ev.cachePayload entry, Ev.dupCheckCall (mkDuplicatePayload entry)]
  if dupResponse.length > 0 then
    { trace := pre, collection := ctx.collection, duplicates := dupResponse,
      showModal := true, formData := entry, resultId := none }
  else
    let commit := createNewEntry ctx query entry
    { trace := pre ++ commit.trace, collection := commit.collection, duplicates := [],
      showModal := false, formData := entry, resultId := some commit.resultId }

/-- HandlerModal of EntryForm: the user confirms and the cached payload is
committed. -/
def HandlerModal (ctx : WorkflowCtx) (query : Query) (cachedFormData : Obj) :
    CommitResult :=
  createNewEntry ctx query cachedFormData

/-- What a component renders. -/
inductive RenderResult
  | nothing
  | loading
  | content
deriving DecidableEq, Repr

/-- The render-state decision of EntryForm: a fetch error renders null, a
pending edit fetch shows the spinner, a missing entry on edit renders null,
otherwise the form is shown. -/
def entryFormRender (isEdit entriesError : Bool) (entries : Option (List Obj)) :
    RenderResult :=
  if entriesError then RenderResult.nothing
  else if entries.isNone && isEdit then RenderResult.loading
  else
    let foundEntry := match entries with
      | some (_ :: _) => true
      | _ => false
    if !foundEntry && isEdit then RenderResult.nothing
    else RenderResult.content

/-- The render-state decision of EntityRatings: no rating ids, a fetch error,
or a pending fetch all render null. -/
def entityRatingsRender (ratingsIds : List String) (ratingsError : Bool)
    (ratings : Option (List Rating)) : RenderResult :=
  if ratingsIds.isEmpty then RenderResult.nothing
  else if ratingsError then RenderResult.nothing
  else if ratings.isNone then RenderResult.nothing
  else RenderResult.content

/-- Modelled from the spec: the ratings endpoint of api/endpoints (not among
the given sources), GET /ratings/{comma-joined ids}. -/
def getRatingsEndpoint : String := "/ratings"

/-- The conditional ratings request of EntityRatings: no request at all when
the id list is empty, otherwise the comma-joined GET url. -/
def entityRatingsFetch (ratingsIds : List String) : Option String :=
  if ratingsIds.isEmpty then none
  else some (getRatingsEndpoint ++ "/" ++ String.intercalate "," ratingsIds)

end KVM

namespace KVM

/-- Unfolding lemma: renameProperties maps each key through renameKey. -/
theorem renameProperties_cons (a : String) (b : FieldValue) (t : Obj)
    (ren : List (String × String)) :
    renameProperties ((a, b) :: t) ren = (renameKey ren a, b) :: renameProperties t ren := rfl

/-- Looking a key up after a value-only map applies the function to the found value. -/
theorem lookup_map_value (f : String → FieldValue → FieldValue) (e : Obj) (k : String) :
    (e.map (fun kv => (kv.1, f kv.1 kv.2))).lookup k = (e.lookup k).map (f k) := by
  induction e with
  | nil => rfl
  | cons p t ih =>
    obtain ⟨a, b⟩ := p
    by_cases hk : k = a
    · subst hk; simp [List.lookup]
    · simp [List.lookup, beq_false_of_ne hk, ih]

/-- Lookup distributes over list append. -/
theorem lookup_append {α : Type} (l₁ l₂ : List (String × α)) (k : String) :
    (l₁ ++ l₂).lookup k =
      match l₁.lookup k with
      | some v => some v
      | none => l₂.lookup k := by
  induction l₁ with
  | nil => simp [List.lookup]
  | cons p t ih =>
    obtain ⟨a, b⟩ := p
    by_cases hk : k = a
    · subst hk; simp [List.lookup]
    · simp [List.lookup, beq_false_of_ne hk, ih]

/-- Lookup after filtering on a key predicate. -/
theorem lookup_filter_key {α : Type} (p : String → Bool) (l : List (String × α)) (k : String) :
    (l.filter (fun kv => p kv.1)).lookup k = if p k then l.lookup k else none := by
  induction l with
  | nil => simp [List.lookup]
  | cons q t ih =>
    obtain ⟨a, b⟩ := q
    by_cases hk : k = a
    · subst hk
      by_cases hp : p k
      · simp [List.filter, hp, List.lookup, ih]
      · simp [List.filter, hp, ih]
    · by_cases hp : p a
      · simp [List.filter, hp, List.lookup, beq_false_of_ne hk, ih]
      · simp [List.filter, hp, List.lookup, beq_false_of_ne hk, ih]

/-- Lookup through the defaulting step. -/
theorem lookup_setValues (e d : Obj) (k : String) :
    (setValuesToDefaultOrNull e d).lookup k =
      match e.lookup k with
      | some v => some (fillVal d k v)
      | none => d.lookup k := by
  unfold setValuesToDefaultOrNull
  rw [lookup_append, lookup_map_value (fun k1 v => fillVal d k1 v)]
  cases he : e.lookup k with
  | some v => simp
  | none =>
    simp only [Option.map_none]
    rw [lookup_filter_key (fun k1 => (e.lookup k1).isNone) d k]
    simp [he]

/-- Lookup through the rule-application step. -/
theorem lookup_transform (e : Obj) (rules : List (String × (FieldValue → FieldValue)))
    (k : String) :
    (transformObject e rules).lookup k = (e.lookup k).map (applyRule rules k) :=
  lookup_map_value (fun k1 v => applyRule rules k1 v) e k

/-- renameKey on the concrete rename table of the form. -/
theorem renameKey_fieldsToRename (k : String) :
    renameKey fieldsToRename k = if k = "custom_links" then "links" else k := by
  by_cases hk : k = "custom_links"
  · subst hk; simp [renameKey, fieldsToRename, List.lookup]
  · simp [renameKey, fieldsToRename, List.lookup, beq_false_of_ne hk, hk]

/-- A key that is neither the rename source nor the rename target is untouched. -/
theorem lookup_rename_ne (e : Obj) (k : String) (h1 : k ≠ "custom_links")
    (h2 : k ≠ "links") :
    (renameProperties e fieldsToRename).lookup k = e.lookup k := by
  induction e with
  | nil => rfl
  | cons p t ih =>
    obtain ⟨a, b⟩ := p
    rw [renameProperties_cons, renameKey_fieldsToRename]
    by_cases hka : k = a
    · subst hka
      simp [h1, List.lookup]
    · by_cases ha : a = "custom_links" <;>
        simp [ha, List.lookup, beq_false_of_ne hka, beq_false_of_ne h1,
          beq_false_of_ne h2, ih]

/-- After the rename, the custom_links key is gone. -/
theorem lookup_rename_custom (e : Obj) :
    (renameProperties e fieldsToRename).lookup "custom_links" = none := by
  induction e with
  | nil => rfl
  | cons p t ih =>
    obtain ⟨a, b⟩ := p
    rw [renameProperties_cons, renameKey_fieldsToRename]
    by_cases ha : a = "custom_links"
    · simp [ha, List.lookup, ih]
    · simp [ha, List.lookup, beq_false_of_ne (Ne.symm ha), ih]

/-- After the rename, the links key holds the old custom_links value, provided no
links key was present before. -/
theorem lookup_rename_links : ∀ e : Obj, e.lookup "links" = none →
    (renameProperties e fieldsToRename).lookup "links" = e.lookup "custom_links" := by
  intro e
  induction e with
  | nil => intro _; rfl
  | cons p t ih =>
    obtain ⟨a, b⟩ := p
    intro h
    rw [renameProperties_cons, renameKey_fieldsToRename]
    by_cases ha : a = "custom_links"
    · simp [ha, List.lookup]
    · by_cases hal : a = "links"
      · rw [hal] at h; simp [List.lookup] at h
      · have h' : t.lookup "links" = none := by
          simpa [List.lookup, beq_false_of_ne (Ne.symm hal)] using h
        simp [ha, List.lookup, beq_false_of_ne (Ne.symm hal),
          beq_false_of_ne (Ne.symm ha), ih h']

/-- C2: the outgoing payload is the result of filling defaults, then applying the
version and license rules, then renaming custom_links to links, in that fixed
order: the version is advanced by one (or set to one from the default zero when
absent), the license array is collapsed to its first element or the empty
string, custom_links disappears and its (defaulted) value reappears under
links, tags defaults to the empty list, and every other present field passes
through unchanged. -/
theorem c2_transform_pipeline (e : Obj) :
    commitPayload e =
        renameProperties
          (transformObject (setValuesToDefaultOrNull e defaultFieldValues) formRules)
          fieldsToRename
    ∧ (∀ n : Int, e.lookup "version" = some (FieldValue.num n) →
        (commitPayload e).lookup "version" = some (FieldValue.num (n + 1)))
    ∧ (e.lookup "version" = none →
        (commitPayload e).lookup "version" = some (FieldValue.num 1))
    ∧ (∀ ls : List String, e.lookup "license" = some (FieldValue.strList ls) →
        (commitPayload e).lookup "license" = some (FieldValue.str (ls.headD "")))
    ∧ (commitPayload e).lookup "custom_links" = none
    ∧ (e.lookup "links" = none →
        (commitPayload e).lookup "links" =
          some (match e.lookup "custom_links" with
                | some v => if v = FieldValue.null then FieldValue.linkList [] else v
                | none => FieldValue.linkList []))
    ∧ (e.lookup "tags" = none →
        (commitPayload e).lookup "tags" = some (FieldValue.strList []))
    ∧ (∀ (k : String) (v : FieldValue),
        k ∉ (["tags", "custom_links", "version", "license", "links"] : List String) →
        e.lookup k = some v → (commitPayload e).lookup k = some v) := by
  refine ⟨rfl, ?_, ?_, ?_, ?_, ?_, ?_, ?_⟩
  · intro n hv
    unfold commitPayload transformFormFields setFieldsToDefaultOrNull
    rw [lookup_rename_ne _ _ (by decide) (by decide), lookup_transform, lookup_setValues, hv]
    simp [fillVal, defaultFieldValues, List.lookup, applyRule, formRules, versionRule]
  · intro hv
    unfold commitPayload transformFormFields setFieldsToDefaultOrNull
    rw [lookup_rename_ne _ _ (by decide) (by decide), lookup_transform, lookup_setValues, hv]
    simp [defaultFieldValues, List.lookup, applyRule, formRules, versionRule]
  · intro ls hl
    unfold commitPayload transformFormFields setFieldsToDefaultOrNull
    rw [lookup_rename_ne _ _ (by decide) (by decide), lookup_transform, lookup_setValues, hl]
    cases ls <;>
      simp [fillVal, defaultFieldValues, List.lookup, applyRule, formRules, licenseRule]
  · exact lookup_rename_custom _
  · intro hl
    unfold commitPayload transformFormFields setFieldsToDefaultOrNull
    have htr : (transformObject (setValuesToDefaultOrNull e defaultFieldValues)
        formRules).lookup "links" = none := by
      rw [lookup_transform, lookup_setValues, hl]
      simp [defaultFieldValues, List.lookup]
    rw [lookup_rename_links _ htr, lookup_transform, lookup_setValues]
    cases hc : e.lookup "custom_links" with
    | some v =>
      simp [fillVal, defaultFieldValues, List.lookup, applyRule, formRules]
    | none =>
      simp [defaultFieldValues, List.lookup, applyRule, formRules]
  · intro ht
    unfold commitPayload transformFormFields setFieldsToDefaultOrNull
    rw [lookup_rename_ne _ _ (by decide) (by decide), lookup_transform, lookup_setValues, ht]
    simp [defaultFieldValues, List.lookup, applyRule, formRules]
  · intro k v hk hv
    simp only [List.mem_cons, List.mem_singleton, not_or] at hk
    obtain ⟨hk1, hk2, hk3, hk4, hk5, -⟩ := hk
    unfold commitPayload transformFormFields setFieldsToDefaultOrNull
    rw [lookup_rename_ne _ _ hk2 hk5, lookup_transform, lookup_setValues, hv]
    simp [fillVal, applyRule, defaultFieldValues, formRules, List.lookup,
      beq_false_of_ne hk1, beq_false_of_ne hk2, beq_false_of_ne hk3, beq_false_of_ne hk4]

/-- Witness for C2 at a concrete entry: version five, one license, one custom link. -/
theorem c2_transform_pipeline_witness :
    (commitPayload [("title", FieldValue.str "shop"),
        ("version", FieldValue.num 5),
        ("license", FieldValue.strList ["CC0-1.0"]),
        ("custom_links", FieldValue.linkList [("site", "url")])]).lookup "version" =
      some (FieldValue.num 6)
    ∧ (commitPayload [("title", FieldValue.str "shop"),
        ("version", FieldValue.num 5),
        ("license", FieldValue.strList ["CC0-1.0"]),
        ("custom_links", FieldValue.linkList [("site", "url")])]).lookup "license" =
      some (FieldValue.str "CC0-1.0")
    ∧ (commitPayload [("title", FieldValue.str "shop"),
        ("version", FieldValue.num 5),
        ("license", FieldValue.strList ["CC0-1.0"]),
        ("custom_links", FieldValue.linkList [("site", "url")])]).lookup "custom_links" =
      none
    ∧ (commitPayload [("title", FieldValue.str "shop"),
        ("version", FieldValue.num 5),
        ("license", FieldValue.strList ["CC0-1.0"]),
        ("custom_links", FieldValue.linkList [("site", "url")])]).lookup "links" =
      some (FieldValue.linkList [("site", "url")])
    ∧ (commitPayload [("title", FieldValue.str "shop"),
        ("version", FieldValue.num 5),
        ("license", FieldValue.strList ["CC0-1.0"]),
        ("custom_links", FieldValue.linkList [("site", "url")])]).lookup "title" =
      some (FieldValue.str "shop") := by
  have h := c2_transform_pipeline
    [("title", FieldValue.str "shop"),
     ("version", FieldValue.num 5),
     ("license", FieldValue.strList ["CC0-1.0"]),
     ("custom_links", FieldValue.linkList [("site", "url")])]
  refine ⟨h.2.1 5 (by decide), h.2.2.2.1 ["CC0-1.0"] (by decide), h.2.2.2.2.1, ?_,
    h.2.2.2.2.2.2.2 "title" (FieldValue.str "shop") (by decide) (by decide)⟩
  have hl := h.2.2.2.2.2.1 (by decide)
  simpa using hl

/-- Lookup through one grouping step. -/
theorem lookup_addToGroups (gs : List (String × List Rating)) (r : Rating) (c : String) :
    (addToGroups gs r).lookup c =
      if c = r.context then some (((gs.lookup c).getD []) ++ [r]) else gs.lookup c := by
  induction gs with
  | nil =>
    by_cases hc : c = r.context
    · simp [addToGroups, List.lookup, hc]
    · simp [addToGroups, List.lookup, beq_false_of_ne hc, hc]
  | cons p rest ih =>
    obtain ⟨a, l⟩ := p
    by_cases ha : a = r.context
    · by_cases hc : c = a
      · subst hc
        simp [addToGroups, ha, List.lookup]
      · have hcr : c ≠ r.context := fun h => hc (h.trans ha.symm)
        simp [addToGroups, ha, List.lookup, beq_false_of_ne hc,
          beq_false_of_ne hcr, hcr]
    · by_cases hc : c = a
      · have hcr : ¬c = r.context := fun h => ha (hc.symm.trans h)
        simp [addToGroups, ha, List.lookup, hc, hcr]
      · simp [addToGroups, ha, List.lookup, beq_false_of_ne hc, ih]

/-- Lookup through the whole grouping fold, for an arbitrary accumulator. -/
theorem lookup_foldl_groups (rs : List Rating) : ∀ (gs : List (String × List Rating))
    (c : String),
    (rs.foldl addToGroups gs).lookup c =
      match gs.lookup c with
      | some l => some (l ++ rs.filter (fun x => x.context == c))
      | none =>
        if rs.filter (fun x => x.context == c) = [] then none
        else some (rs.filter (fun x => x.context == c)) := by
  induction rs with
  | nil => intro gs c; cases h : gs.lookup c <;> simp [h]
  | cons r rs' ih =>
    intro gs c
    rw [List.foldl_cons, ih (addToGroups gs r) c, lookup_addToGroups]
    by_cases hc : c = r.context
    · have hfc : (r :: rs').filter (fun x => x.context == c) =
          r :: rs'.filter (fun x => x.context == c) := by
        simp [List.filter, hc.symm]
      cases h : gs.lookup c with
      | some l => simp [hc, h, hfc]
      | none => simp [hc, h, hfc]
    · have hfc : (r :: rs').filter (fun x => x.context == c) =
          rs'.filter (fun x => x.context == c) := by
        simp [List.filter, beq_false_of_ne (fun h => hc h.symm)]
      simp [hc, hfc]

/-- Keys after one grouping step: unchanged, or the new context appended. -/
theorem keys_addToGroups (gs : List (String × List Rating)) (r : Rating) :
    (addToGroups gs r).map Prod.fst =
      if r.context ∈ gs.map Prod.fst then gs.map Prod.fst
      else gs.map Prod.fst ++ [r.context] := by
  induction gs with
  | nil => simp [addToGroups]
  | cons p rest ih =>
    obtain ⟨a, l⟩ := p
    by_cases ha : a = r.context
    · simp [addToGroups, ha]
    · have hra : r.context ≠ a := fun h => ha h.symm
      by_cases hm : r.context ∈ rest.map Prod.fst <;>
        simp [addToGroups, ha, ih, hm, hra]

/-- The grouping fold keeps the key list duplicate-free. -/
theorem keys_nodup_foldl (rs : List Rating) : ∀ gs : List (String × List Rating),
    (gs.map Prod.fst).Nodup → ((rs.foldl addToGroups gs).map Prod.fst).Nodup := by
  induction rs with
  | nil => intro gs h; simpa using h
  | cons r rs' ih =>
    intro gs h
    rw [List.foldl_cons]
    apply ih
    rw [keys_addToGroups]
    by_cases hm : r.context ∈ gs.map Prod.fst
    · simpa [hm] using h
    · simp [hm, List.nodup_append, h]

/-- The grouped contexts are pairwise distinct. -/
theorem keys_groupByContext_nodup (rs : List Rating) :
    ((groupByContext rs).map Prod.fst).Nodup :=
  keys_nodup_foldl rs [] (by simp)

/-- A lookup misses exactly when the key is absent from the key list. -/
theorem lookup_none_iff_keys {α : Type} (l : List (String × α)) (k : String) :
    l.lookup k = none ↔ k ∉ l.map Prod.fst := by
  induction l with
  | nil => simp [List.lookup]
  | cons p t ih =>
    obtain ⟨a, b⟩ := p
    by_cases hk : k = a
    · subst hk; simp [List.lookup]
    · simp [List.lookup, beq_false_of_ne hk, hk, ih]

/-- Sorting is a permutation. -/
theorem sortStrings_perm (l : List String) : List.Perm (sortStrings l) l :=
  List.perm_insertionSort _ l

/-- Sorting sorts. -/
theorem sortStrings_sorted (l : List String) : (sortStrings l).Sorted (· ≤ ·) :=
  List.sorted_insertionSort _ l

/-- Sorting a duplicate-free list gives a strictly increasing list. -/
theorem sortStrings_pairwise_lt (l : List String) (h : l.Nodup) :
    (sortStrings l).Pairwise (· < ·) := by
  have hs := sortStrings_sorted l
  have hn : (sortStrings l).Nodup := ((sortStrings_perm l).nodup_iff).mpr h
  exact (List.Pairwise.and hs hn).imp fun hab => lt_of_le_of_ne hab.1 hab.2

/-- C5: grouping maps each context to exactly the input ratings carrying that
context in input order (stable grouping), the displayed context list is
strictly lexicographically sorted and holds exactly the contexts occurring in
the input, and the bucket of a context depends only on the subsequence of
ratings carrying that context — it is invariant under any rearrangement of the
other ratings. -/
theorem c5_group_sorted (rs : List Rating) (c : String) :
    (groupByContext rs).lookup c =
      (if rs.filter (fun x => x.context == c) = [] then none
       else some (rs.filter (fun x => x.context == c)))
    ∧ (sortedContexts rs).Pairwise (· < ·)
    ∧ (c ∈ sortedContexts rs ↔ c ∈ rs.map Rating.context)
    ∧ (∀ rs2 : List Rating,
        rs.filter (fun x => x.context == c) = rs2.filter (fun x => x.context == c) →
        (groupByContext rs).lookup c = (groupByContext rs2).lookup c) := by
  have hmain : ∀ rs' : List Rating, (groupByContext rs').lookup c =
      (if rs'.filter (fun x => x.context == c) = [] then none
       else some (rs'.filter (fun x => x.context == c))) := by
    intro rs'
    unfold groupByContext
    rw [lookup_foldl_groups]
    simp [List.lookup]
  refine ⟨hmain rs, ?_, ?_, ?_⟩
  · exact sortStrings_pairwise_lt _ (keys_groupByContext_nodup rs)
  · constructor
    · intro hc
      have hk : c ∈ (groupByContext rs).map Prod.fst :=
        ((sortStrings_perm _).mem_iff).mp hc
      have hne : (groupByContext rs).lookup c ≠ none := by
        rw [Ne, lookup_none_iff_keys]
        exact fun h => h hk
      rw [hmain rs] at hne
      by_cases hf : rs.filter (fun x => x.context == c) = []
      · simp [hf] at hne
      · obtain ⟨r, hr⟩ := List.exists_mem_of_ne_nil _ hf
        obtain ⟨hrm, hrc⟩ := List.mem_filter.mp hr
        exact List.mem_map.mpr ⟨r, hrm, by simpa using hrc⟩
    · intro hc
      obtain ⟨r, hrmem, hrc⟩ := List.mem_map.mp hc
      have hrf : r ∈ rs.filter (fun x => x.context == c) :=
        List.mem_filter.mpr ⟨hrmem, by simp [hrc]⟩
      have hne : rs.filter (fun x => x.context == c) ≠ [] := by
        intro h
        rw [h] at hrf
        exact (List.not_mem_nil r) hrf
      have hk : c ∈ (groupByContext rs).map Prod.fst := by
        by_contra hnk
        rw [← lookup_none_iff_keys] at hnk
        rw [hmain rs] at hnk
        simp [hne] at hnk
      exact ((sortStrings_perm _).mem_iff).mpr hk
  · intro rs2 hf
    rw [hmain rs, hmain rs2, hf]

/-- C4: for a rating whose comment list is non-empty, threading yields the first
comment as the root and the remaining comments, in order, as the replies. -/
theorem c4_thread_root_replies (r : Rating) (c : RatingComment)
    (cs : List RatingComment) (h : r.comments = c :: cs) :
    threadRating r = (some c, cs) := by
  simp [threadRating, h]

/-- Witness for C4 at a concrete three-comment rating. -/
theorem c4_thread_root_replies_witness :
    threadRating
      { id := "r1", context := "diversity", source := "",
        comments := [⟨"c0", 0, "root"⟩, ⟨"c1", 1, "first reply"⟩, ⟨"c2", 2, "second reply"⟩] } =
      (some ⟨"c0", 0, "root"⟩, [⟨"c1", 1, "first reply"⟩, ⟨"c2", 2, "second reply"⟩]) :=
  c4_thread_root_replies _ _ _ rfl

/-- Witness for C5: the bucket of one context is unchanged when a rating of
another context moves. -/
theorem c5_group_sorted_witness :
    (groupByContext
        [⟨"r1", "b", "", []⟩, ⟨"r2", "a", "", []⟩, ⟨"r3", "b", "", []⟩]).lookup "b" =
      (groupByContext
        [⟨"r1", "b", "", []⟩, ⟨"r3", "b", "", []⟩, ⟨"r2", "a", "", []⟩]).lookup "b" := by
  have h := c5_group_sorted
    [⟨"r1", "b", "", []⟩, ⟨"r2", "a", "", []⟩, ⟨"r3", "b", "", []⟩] "b"
  exact h.2.2.2 [⟨"r1", "b", "", []⟩, ⟨"r3", "b", "", []⟩, ⟨"r2", "a", "", []⟩] (by decide)

/-- The encoding of a nonempty chain is nonempty. -/
theorem encodeChain_ne_nil (e : ChainEntry) (rest : List ChainEntry) :
    encodeChain (e :: rest) ≠ [] := by
  simp [encodeChain, encodeEntry]

/-- Unpacking of the well-formedness of one chain entry. -/
theorem wellFormedEntry_split (tokens : List String) (e : ChainEntry)
    (h : wellFormedEntry tokens e = true) :
    tokens.contains e.entityType = true
    ∧ slugVerbs.contains e.entityType = false
    ∧ (∀ i, e.id = some i →
        tokens.contains i = false ∧ slugVerbs.contains i = false) := by
  unfold wellFormedEntry at h
  cases hid : e.id with
  | none =>
    rw [hid] at h
    simp only [Bool.and_eq_true, Bool.not_eq_true'] at h
    exact ⟨h.1.1, h.1.2, fun i hi => Option.noConfusion hi⟩
  | some i =>
    rw [hid] at h
    simp only [Bool.and_eq_true, Bool.not_eq_true'] at h
    refine ⟨h.1.1, h.1.2, fun j hj => ?_⟩
    have hij : i = j := by injection hj
    subst hij
    exact ⟨h.2.1, h.2.2⟩

/-- The last segment of a well-formed encoded chain is never a verb token. -/
theorem getLast_encodeChain_not_verb (tokens : List String) :
    ∀ chain : List ChainEntry, (∀ e ∈ chain, wellFormedEntry tokens e = true) →
    ∀ x, (encodeChain chain).getLast? = some x → slugVerbs.contains x = false := by
  intro chain
  induction chain with
  | nil => intro _ x hx; simp [encodeChain] at hx
  | cons e rest ih =>
    intro h x hx
    obtain ⟨_, hnv, hids⟩ := wellFormedEntry_split tokens e (h e (List.mem_cons_self e rest))
    cases hr : rest with
    | nil =>
      subst hr
      cases hid : e.id with
      | none =>
        have hxi : some x = some e.entityType := by
          rw [← hx]; simp [encodeChain, encodeEntry, encodeIdPart, hid]
        have hxe : x = e.entityType := by injection hxi
        rw [hxe]
        exact hnv
      | some i =>
        have hxi : some x = some i := by
          rw [← hx]; simp [encodeChain, encodeEntry, encodeIdPart, hid, List.getLast?]
        have hxe : x = i := by injection hxi
        rw [hxe]
        exact (hids i hid).2
    | cons e2 rest2 =>
      subst hr
      have hx2 : (encodeChain (e2 :: rest2)).getLast? = some x := by
        rw [show encodeChain (e :: e2 :: rest2) =
            encodeEntry e ++ encodeChain (e2 :: rest2) from rfl] at hx
        rwa [List.getLast?_append_of_ne_nil (encodeEntry e)
          (encodeChain_ne_nil e2 rest2)] at hx
      exact ih (fun e3 he3 => h e3 (List.mem_cons_of_mem e he3)) x hx2

/-- Decoding inverts encoding on a well-formed chain. -/
theorem decodeChain_encodeChain (tokens : List String) :
    ∀ chain : List ChainEntry, (∀ e ∈ chain, wellFormedEntry tokens e = true) →
    decodeChain tokens (encodeChain chain) = chain := by
  intro chain
  induction chain with
  | nil => intro _; rfl
  | cons e rest ih =>
    intro h
    obtain ⟨et, eid⟩ := e
    obtain ⟨het1, het2, hids⟩ :=
      wellFormedEntry_split tokens ⟨et, eid⟩ (h ⟨et, eid⟩ (List.mem_cons_self _ _))
    have hrest : ∀ e2 ∈ rest, wellFormedEntry tokens e2 = true :=
      fun e2 he2 => h e2 (List.mem_cons_of_mem _ he2)
    cases eid with
    | some i =>
      obtain ⟨hi1, hi2⟩ := hids i rfl
      have henc : encodeChain (⟨et, some i⟩ :: rest) = et :: i :: encodeChain rest := rfl
      have hdec : decodeChain tokens (et :: i :: encodeChain rest) =
          if tokens.contains i || slugVerbs.contains i then
            ⟨et, none⟩ :: decodeChain tokens (i :: encodeChain rest)
          else ⟨et, some i⟩ :: decodeChain tokens (encodeChain rest) := rfl
      rw [henc, hdec, hi1, hi2]
      simp [ih hrest]
    | none =>
      have henc : encodeChain (⟨et, none⟩ :: rest) = et :: encodeChain rest := by
        simp [encodeChain, encodeEntry, encodeIdPart]
      rw [henc]
      cases hr : rest with
      | nil => subst hr; rfl
      | cons e2 rest2 =>
        subst hr
        have h2 : tokens.contains e2.entityType = true :=
          (wellFormedEntry_split tokens e2
            (hrest e2 (List.mem_cons_self _ _))).1
        obtain ⟨et2, eid2⟩ := e2
        have henc2 : encodeChain (⟨et2, eid2⟩ :: rest2) = et2 ::
            (encodeIdPart eid2 ++ encodeChain rest2) := rfl
        rw [henc2]
        have hdec : decodeChain tokens (et :: et2 ::
            (encodeIdPart eid2 ++ encodeChain rest2)) =
            if tokens.contains et2 || slugVerbs.contains et2 then
              ⟨et, none⟩ :: decodeChain tokens (et2 ::
                (encodeIdPart eid2 ++ encodeChain rest2))
            else ⟨et, some et2⟩ :: decodeChain tokens
                (encodeIdPart eid2 ++ encodeChain rest2) := rfl
        rw [hdec, h2]
        rw [if_pos (by rw [Bool.true_or])]
        congr 1
        rw [← henc2]
        exact ih hrest

/-- C6: decoding inverts encoding on every descriptor with well-formed entries
(recognized entity-type tokens, ids that are opaque, a recognized trailing
verb when present). -/
theorem c6_decode_encode (tokens : List String) (d : NavigationDescriptor)
    (h : wellFormed tokens d = true) : decode tokens (encode d) = d := by
  obtain ⟨chain, verb⟩ := d
  unfold wellFormed at h
  rw [Bool.and_eq_true] at h
  obtain ⟨hall, hverb⟩ := h
  have hchain : ∀ e ∈ chain, wellFormedEntry tokens e = true := by
    intro e he
    exact List.all_eq_true.mp hall e he
  cases verb with
  | some v =>
    have hv : slugVerbs.contains v = true := hverb
    have hv2 : v ∈ slugVerbs := by simpa using hv
    have henc : encode ⟨chain, some v⟩ = encodeChain chain ++ [v] := rfl
    rw [henc]
    unfold decode
    rw [List.getLast?_concat, List.dropLast_concat]
    simp [hv2, decodeChain_encodeChain tokens chain hchain]
  | none =>
    have henc : encode ⟨chain, none⟩ = encodeChain chain := by
      simp [encode]
    rw [henc]
    cases hch : chain with
    | nil => rfl
    | cons e rest =>
      cases hgl : (encodeChain (e :: rest)).getLast? with
      | none =>
        rw [List.getLast?_eq_none_iff] at hgl
        exact absurd hgl (encodeChain_ne_nil e rest)
      | some x =>
        have hchain2 : ∀ e2 ∈ e :: rest, wellFormedEntry tokens e2 = true := by
          intro e2 he2
          exact hchain e2 (hch ▸ he2)
        have hnx : slugVerbs.contains x = false :=
          getLast_encodeChain_not_verb tokens (e :: rest) hchain2 x hgl
        have hnx2 : x ∉ slugVerbs := by simpa using hnx
        unfold decode
        rw [hgl]
        simp [hnx2, decodeChain_encodeChain tokens (e :: rest) hchain2]

/-- Witness for C6 at the descriptor of scenario C: entities/abc123/ratings
with the create verb. -/
theorem c6_decode_encode_witness :
    decode ["entities", "ratings", "comments"]
        (encode ⟨[⟨"entities", some "abc123"⟩, ⟨"ratings", none⟩], some "create"⟩) =
      ⟨[⟨"entities", some "abc123"⟩, ⟨"ratings", none⟩], some "create"⟩ :=
  c6_decode_encode ["entities", "ratings", "comments"]
    ⟨[⟨"entities", some "abc123"⟩, ⟨"ratings", none⟩], some "create"⟩ (by decide)

/-- C1: on submit, the raw payload is cached first, the first network call is
the duplicate check with the reduced payload, a non-empty candidate list is
handed verbatim to the confirmation modal with no POST or PUT issued until the
user confirms (the confirmation then replays exactly one commit call from the
cached payload), and an empty candidate list lets exactly one commit call
proceed immediately. -/
theorem c1_duplicate_gate (ctx : WorkflowCtx) (query : Query) (entry : Obj)
    (dupResponse : List Obj) :
    (onFinish ctx query entry dupResponse).trace.head? = some (Ev.cachePayload entry)
    ∧ (onFinish ctx query entry dupResponse).trace.find? isNetworkCall =
        some (Ev.dupCheckCall (mkDuplicatePayload entry))
    ∧ (dupResponse ≠ [] →
        (onFinish ctx query entry dupResponse).duplicates = dupResponse
        ∧ (onFinish ctx query entry dupResponse).showModal = true
        ∧ (onFinish ctx query entry dupResponse).trace.countP isCommitCall = 0
        ∧ (onFinish ctx query entry dupResponse).formData = entry
        ∧ (HandlerModal ctx query
            (onFinish ctx query entry dupResponse).formData).trace.countP isCommitCall = 1)
    ∧ (dupResponse = [] →
        (onFinish ctx query entry dupResponse).trace.countP isCommitCall = 1) := by
  have hcommit : ∀ (q : Query) (e2 : Obj),
      (createNewEntry ctx q e2).trace.countP isCommitCall = 1 := by
    intro q e2
    cases he : ctx.isEdit <;>
      simp [createNewEntry, createOrEditEntry, he, List.countP_cons, isCommitCall,
        redirectToEntry]
  cases dupResponse with
  | nil =>
    refine ⟨?_, ?_, fun h => absurd rfl h, fun _ => ?_⟩
    · simp [onFinish]
    · simp [onFinish, List.find?, isNetworkCall]
    · simpa [onFinish, List.countP_cons, isCommitCall] using hcommit query entry
  | cons dhead dtail =>
    refine ⟨?_, ?_, fun _ => ⟨?_, ?_, ?_, ?_, ?_⟩, fun h => by simp at h⟩
    · simp [onFinish]
    · simp [onFinish, List.find?, isNetworkCall]
    · simp [onFinish]
    · simp [onFinish]
    · simp [onFinish, List.countP_cons, isCommitCall]
    · simp [onFinish]
    · simpa [onFinish, HandlerModal] using hcommit query entry

/-- Witness for C1: two duplicates stall the commit, no duplicates let exactly
one commit through. -/
theorem c1_duplicate_gate_witness :
    (onFinish ⟨false, "", "newid", []⟩ [] [("title", FieldValue.str "t")]
        [[("title", FieldValue.str "x")], [("title", FieldValue.str "y")]]).duplicates =
      [[("title", FieldValue.str "x")], [("title", FieldValue.str "y")]]
    ∧ (onFinish ⟨false, "", "newid", []⟩ [] [("title", FieldValue.str "t")]
        [[("title", FieldValue.str "x")], [("title", FieldValue.str "y")]]).trace.countP
        isCommitCall = 0
    ∧ (onFinish ⟨false, "", "newid", []⟩ [] [("title", FieldValue.str "t")]
        []).trace.countP isCommitCall = 1 := by
  have h1 := c1_duplicate_gate ⟨false, "", "newid", []⟩ [] [("title", FieldValue.str "t")]
    [[("title", FieldValue.str "x")], [("title", FieldValue.str "y")]]
  have h2 := c1_duplicate_gate ⟨false, "", "newid", []⟩ [] [("title", FieldValue.str "t")] []
  exact ⟨(h1.2.2.1 (by decide)).1, (h1.2.2.1 (by decide)).2.2.1, h2.2.2.2 rfl⟩

/-- C3: a create issues exactly one POST (no PUT) carrying the transformed
payload, takes the server-assigned id, and prepends the converted entry to the
collection; an edit issues exactly one PUT (no POST) to the existing id,
keeps that id, and leaves the collection untouched. -/
theorem c3_commit_effects (ctx : WorkflowCtx) (query : Query) (entry : Obj) :
    (ctx.isEdit = false →
      (createNewEntry ctx query entry).trace.countP isPostCall = 1
      ∧ (createNewEntry ctx query entry).trace.countP isPutCall = 0
      ∧ Ev.postEntries (transformFormFields (setFieldsToDefaultOrNull entry)) ∈
          (createNewEntry ctx query entry).trace
      ∧ (createNewEntry ctx query entry).resultId = ctx.serverId
      ∧ (createNewEntry ctx query entry).collection =
          convertNewEntryToSearchEntry ctx.serverId
            (transformFormFields (setFieldsToDefaultOrNull entry)) :: ctx.collection)
    ∧ (ctx.isEdit = true →
      (createNewEntry ctx query entry).trace.countP isPutCall = 1
      ∧ (createNewEntry ctx query entry).trace.countP isPostCall = 0
      ∧ Ev.putEntries ctx.entryId (transformFormFields (setFieldsToDefaultOrNull entry)) ∈
          (createNewEntry ctx query entry).trace
      ∧ (createNewEntry ctx query entry).resultId = ctx.entryId
      ∧ (createNewEntry ctx query entry).collection = ctx.collection) := by
  constructor <;> intro he <;>
    simp [createNewEntry, createOrEditEntry, addEntryToStateOnCreate, he,
      List.countP_cons, isPostCall, isPutCall, redirectToEntry]

/-- Witness for C3: a concrete create takes the server id, a concrete edit
keeps its id and collection. -/
theorem c3_commit_effects_witness :
    (createNewEntry ⟨false, "", "newid", []⟩ [] [("title", FieldValue.str "t")]).resultId =
      "newid"
    ∧ (createNewEntry ⟨true, "oldid", "x", []⟩ [] [("title", FieldValue.str "t")]).resultId =
      "oldid"
    ∧ (createNewEntry ⟨true, "oldid", "x", []⟩ [] [("title", FieldValue.str "t")]).collection =
      [] := by
  have h1 := c3_commit_effects ⟨false, "", "newid", []⟩ [] [("title", FieldValue.str "t")]
  have h2 := c3_commit_effects ⟨true, "oldid", "x", []⟩ [] [("title", FieldValue.str "t")]
  exact ⟨(h1.1 rfl).2.2.2.1, (h2.2 rfl).2.2.2.1, (h2.2 rfl).2.2.2.2⟩

/-- Counterexample for C7: two entries agreeing on every identity, location and
contact field but differing in license produce different duplicate payloads,
so the payload is not a projection of those fields only. -/
theorem c7_counterexample :
    idLocContactProj [("title", FieldValue.str "cafe"),
        ("license", FieldValue.strList ["CC0-1.0"])] =
      idLocContactProj [("title", FieldValue.str "cafe"),
        ("license", FieldValue.strList [])]
    ∧ mkDuplicatePayload [("title", FieldValue.str "cafe"),
        ("license", FieldValue.strList ["CC0-1.0"])] ≠
      mkDuplicatePayload [("title", FieldValue.str "cafe"),
        ("license", FieldValue.strList [])] := by
  decide

/-- C7 (amended): the duplicate payload is determined by the identity, location
and contact fields together with the license (joined to one string); id and
the contact person are sent as null, version is the constant 1. -/
theorem c7_payload_shape (e1 e2 : Obj) (h : idLocContactProj e1 = idLocContactProj e2)
    (hl : e1.lookup "license" = e2.lookup "license") :
    mkDuplicatePayload e1 = mkDuplicatePayload e2
    ∧ (mkDuplicatePayload e1).lookup "id" = some FieldValue.null
    ∧ (mkDuplicatePayload e1).lookup "contact" = some FieldValue.null
    ∧ (mkDuplicatePayload e1).lookup "version" = some (FieldValue.num 1)
    ∧ (mkDuplicatePayload e1).lookup "license" =
        some (joinLicense (lookupD e1 "license")) := by
  simp [idLocContactProj] at h
  obtain ⟨h1, h2, h3, h4, h5, h6, h7, h8, h9, h10, h11, h12⟩ := h
  refine ⟨?_, ?_, ?_, ?_, ?_⟩
  · simp [mkDuplicatePayload, lookupD, h1, h2, h3, h4, h5, h6, h7, h8, h9, h11, h12, hl]
  · simp [mkDuplicatePayload, List.lookup]
  · simp [mkDuplicatePayload, List.lookup]
  · simp [mkDuplicatePayload, List.lookup]
  · simp [mkDuplicatePayload, List.lookup]

/-- Witness for C7 (amended): two entries differing only in a field outside the
projection produce identical payloads with null id. -/
theorem c7_payload_shape_witness :
    mkDuplicatePayload [("title", FieldValue.str "b"), ("homepage", FieldValue.str "x")] =
      mkDuplicatePayload [("title", FieldValue.str "b"), ("homepage", FieldValue.str "y")]
    ∧ (mkDuplicatePayload [("title", FieldValue.str "b"),
        ("homepage", FieldValue.str "x")]).lookup "id" = some FieldValue.null := by
  have h := c7_payload_shape
    [("title", FieldValue.str "b"), ("homepage", FieldValue.str "x")]
    [("title", FieldValue.str "b"), ("homepage", FieldValue.str "y")]
    (by decide) (by decide)
  exact ⟨h.1, h.2.1⟩

/-- Counterexample for C8: committing from the create form (current slug
entities/create) redirects to /maps/entities/entities/xyz, not to
/maps/entities/xyz, because the resolver keeps the truncated current chain as
a prefix. -/
theorem c8_counterexample :
    (createNewEntry ⟨false, "", "xyz", []⟩
        [("slug", ["entities", "create"]), ("pinLat", ["47"]), ("pinLng", ["8"])]
        [("title", FieldValue.str "t")]).resultId = "xyz"
    ∧ (createNewEntry ⟨false, "", "xyz", []⟩
        [("slug", ["entities", "create"]), ("pinLat", ["47"]), ("pinLng", ["8"])]
        [("title", FieldValue.str "t")]).trace.find? isRedirectEv =
      some (Ev.redirect "/maps/entities/entities/xyz" [])
    ∧ "/maps/entities/entities/xyz" ≠ "/maps/entities/xyz" := by
  decide

/-- Encoding a chain distributes over list append. -/
theorem encodeChain_append (l1 l2 : List ChainEntry) :
    encodeChain (l1 ++ l2) = encodeChain l1 ++ encodeChain l2 := by
  induction l1 with
  | nil => rfl
  | cons e t ih => simp [encodeChain, ih, List.append_assoc]

/-- Length of the separator-joining loop of String.intercalate. -/
theorem length_intercalate_go (sep : String) :
    ∀ (ss : List String) (acc : String),
    (String.intercalate.go acc sep ss).length =
      acc.length + (ss.map (fun x => sep.length + x.length)).sum := by
  intro ss
  induction ss with
  | nil =>
    intro acc
    simp [show String.intercalate.go acc sep [] = acc from rfl]
  | cons a as ih =>
    intro acc
    rw [show String.intercalate.go acc sep (a :: as) =
        String.intercalate.go (acc ++ sep ++ a) sep as from rfl]
    rw [ih]
    simp only [String.length_append, List.map_cons, List.sum_cons]
    omega

/-- Length of a slash-joined nonempty segment list. -/
theorem length_intercalate_cons (x : String) (ss : List String) :
    (String.intercalate "/" (x :: ss)).length =
      x.length + (ss.map (fun s => 1 + s.length)).sum := by
  rw [show String.intercalate "/" (x :: ss) = String.intercalate.go x "/" ss from rfl]
  rw [length_intercalate_go]
  simp [show ("/" : String).length = 1 from rfl]

/-- C8 (amended): every commit triggers exactly one redirect, the pin
coordinate keys never reach the destination query, the destination path is
always /maps/ followed by the re-encoded current chain truncated to two
entries plus the new entities/id entry, and it equals /maps/entities/
followed by the resulting id exactly when the current slug decodes to an
empty chain. -/
theorem c8_redirect (ctx : WorkflowCtx) (query : Query) (entry : Obj) :
    (createNewEntry ctx query entry).trace.countP isRedirectEv = 1
    ∧ (∀ p q, Ev.redirect p q ∈ (createNewEntry ctx query entry).trace →
        q.lookup "pinLat" = none ∧ q.lookup "pinLng" = none)
    ∧ (∀ p q, Ev.redirect p q ∈ (createNewEntry ctx query entry).trace →
        p = "/maps/" ++ String.intercalate "/"
          (encodeChain ((decode recognizedTokens
              (normalizeQueryParam (query.lookup "slug"))).chain.take 2)
            ++ ["entities", (createNewEntry ctx query entry).resultId]))
    ∧ (∀ p q, Ev.redirect p q ∈ (createNewEntry ctx query entry).trace →
        (p = "/maps/entities/" ++ (createNewEntry ctx query entry).resultId ↔
          (decode recognizedTokens
            (normalizeQueryParam (query.lookup "slug"))).chain = [])) := by
  have hstrip : ∀ k, (["pinLat", "pinLng"] : List String).contains k = true →
      (stripQueryKeys query ["pinLat", "pinLng"]).lookup k = none := by
    intro k hk
    unfold stripQueryKeys
    rw [lookup_filter_key
      (fun k1 => !(k1 == "slug") && !(["pinLat", "pinLng"].contains k1)) query k]
    rw [hk]
    simp
  have hpform : ∀ p q, Ev.redirect p q ∈ (createNewEntry ctx query entry).trace →
      p = "/maps/" ++ String.intercalate "/"
        (encodeChain ((decode recognizedTokens
            (normalizeQueryParam (query.lookup "slug"))).chain.take 2)
          ++ ["entities", (createNewEntry ctx query entry).resultId]) := by
    intro p q hm
    have hp : p = (resolve query (createNewEntry ctx query entry).resultId
        Category.initiative 2 ["pinLat", "pinLng"]).1 := by
      cases he : ctx.isEdit <;>
        simp [createNewEntry, createOrEditEntry, he, redirectToEntry] at hm ⊢ <;>
        simp [hm.1]
    have hres : (resolve query (createNewEntry ctx query entry).resultId
        Category.initiative 2 ["pinLat", "pinLng"]).1 =
        "/maps/" ++ String.intercalate "/"
          (encodeChain ((decode recognizedTokens
              (normalizeQueryParam (query.lookup "slug"))).chain.take 2
            ++ [⟨"entities", some (createNewEntry ctx query entry).resultId⟩]) ++ []) := rfl
    rw [hp, hres, List.append_nil, encodeChain_append]
    rfl
  refine ⟨?_, ?_, hpform, ?_⟩
  · cases he : ctx.isEdit <;>
      simp [createNewEntry, createOrEditEntry, he, List.countP_cons, isRedirectEv,
        redirectToEntry]
  · intro p q hm
    have hq : q = stripQueryKeys query ["pinLat", "pinLng"] := by
      cases he : ctx.isEdit <;>
        simp [createNewEntry, createOrEditEntry, he, redirectToEntry, resolve] at hm <;>
        exact hm.2
    rw [hq]
    exact ⟨hstrip "pinLat" (by decide), hstrip "pinLng" (by decide)⟩
  · intro p q hm
    constructor
    · intro hcanon
      cases hchn : (decode recognizedTokens
          (normalizeQueryParam (query.lookup "slug"))).chain with
      | nil => rfl
      | cons e rest =>
        exfalso
        have hpf := hpform p q hm
        rw [hchn] at hpf
        have heq : "/maps/" ++ String.intercalate "/"
            (encodeChain ((e :: rest).take 2)
              ++ ["entities", (createNewEntry ctx query entry).resultId]) =
            "/maps/entities/" ++ (createNewEntry ctx query entry).resultId :=
          hpf.symm.trans hcanon
        have hsegs : encodeChain ((e :: rest).take 2)
            ++ ["entities", (createNewEntry ctx query entry).resultId] =
            e.entityType :: ((encodeIdPart e.id ++ encodeChain (rest.take 1))
              ++ ["entities", (createNewEntry ctx query entry).resultId]) := rfl
        rw [hsegs] at heq
        have hlen := congrArg String.length heq
        simp only [String.length_append, length_intercalate_cons, List.map_append,
          List.sum_append, List.map_cons, List.sum_cons, List.map_nil, List.sum_nil,
          show ("/maps/" : String).length = 6 from rfl,
          show ("/maps/entities/" : String).length = 15 from rfl,
          show ("entities" : String).length = 8 from rfl] at hlen
        omega
    · intro hchain
      rw [hpform p q hm, hchain]
      rfl

/-- Witness for C8 (amended) at a slug-free query carrying a pin coordinate. -/
theorem c8_redirect_witness :
    (createNewEntry ⟨false, "", "xyz", []⟩ [("pinLat", ["1"])] []).trace.countP
        isRedirectEv = 1
    ∧ ([] : Query).lookup "pinLat" = none
    ∧ "/maps/entities/xyz" =
        "/maps/entities/" ++
          (createNewEntry ⟨false, "", "xyz", []⟩ [("pinLat", ["1"])] []).resultId := by
  have h := c8_redirect ⟨false, "", "xyz", []⟩ [("pinLat", ["1"])] []
  exact ⟨h.1, (h.2.1 "/maps/entities/xyz" [] (by decide)).1,
    (h.2.2.2 "/maps/entities/xyz" [] (by decide)).mpr (by decide)⟩

/-- C9: a failed fetch-for-edit makes the entry form render nothing, a failed
ratings fetch makes the ratings component render nothing. -/
theorem c9_error_null_render (isEdit entriesError : Bool) (entries : Option (List Obj))
    (ratingsIds : List String) (ratingsError : Bool) (ratings : Option (List Rating)) :
    (entriesError = true →
      entryFormRender isEdit entriesError entries = RenderResult.nothing)
    ∧ (ratingsError = true →
      entityRatingsRender ratingsIds ratingsError ratings = RenderResult.nothing) := by
  constructor
  · intro h; simp [entryFormRender, h]
  · intro h
    by_cases hi : ratingsIds.isEmpty <;> simp [entityRatingsRender, h, hi]

/-- Witness for C9 at concrete failing fetches. -/
theorem c9_error_null_render_witness :
    entryFormRender true true none = RenderResult.nothing
    ∧ entityRatingsRender ["5"] true none = RenderResult.nothing := by
  have h := c9_error_null_render true true none ["5"] true none
  exact ⟨h.1 rfl, h.2 rfl⟩

/-- C10: with an empty rating-id list the ratings component issues no fetch at
all and renders nothing. -/
theorem c10_no_fetch_empty_ids (ratingsIds : List String) (ratingsError : Bool)
    (ratings : Option (List Rating)) (h : ratingsIds = []) :
    entityRatingsFetch ratingsIds = none
    ∧ entityRatingsRender ratingsIds ratingsError ratings = RenderResult.nothing := by
  subst h
  exact ⟨rfl, rfl⟩

/-- Witness for C10 at the empty id list. -/
theorem c10_no_fetch_empty_ids_witness :
    entityRatingsFetch [] = none
    ∧ entityRatingsRender [] false (some []) = RenderResult.nothing :=
  c10_no_fetch_empty_ids [] false (some []) rfl

end KVM
